import Mathlib

/-!
# go-io-benchmark: a shallow embedding of `main.go`

The benchmark writes a file in fixed-size blocks, times each block write and
reduces the timed samples to average / best / worst throughput and latency.

Modelling conventions.

* `float64` sample values are exact rationals (`ℚ`).  Comparisons of finite
  floats are exact, so the best / worst tracking is the same; sums and
  averages lose the rounding.  Where Go would produce `+Inf` or `NaN`
  (division by a zero duration, average of zero samples) `ℚ` gives `0`.
* `uint64` counters are `Nat` with an explicit `% 2 ^ 64` where the source adds.
* The file system and the clock are an environment of oracles (`Env`): the
  outcome of `os.OpenFile`, of the `k`-th `file.Write`, of the `k`-th
  `os.Remove`, and the value of `time.Now().Unix()`.
* Every effect the code performs is appended to an event log, in program order.
* The `for` loop of `writeDataToFile` is run with a fuel bound on its number
  of iterations; a run that exhausts the fuel is reported as unfinished.
* The allocation `make([]byte, blockSize)` is answered by the environment: the
  slice is allocated, or the call panics (`makeslice: len out of range`), or
  the runtime stops the program (`fatal error: runtime: out of memory`).  A
  panic runs the deferred calls of `processBenchmark` and then ends the
  program; a fatal error ends it at once.
-/

namespace GoIoBenchmark

/-! ## Data model -/

/-- One timed block write (`type resultData struct`). -/
structure resultData where
  throuput : ℚ
  latency : ℚ
  deriving DecidableEq

/-- Per-job statistics (`type calculatedData struct`). -/
structure calculatedData where
  id : Int
  throuput_avg : ℚ
  latency_avg : ℚ
  throuput_best : ℚ
  latency_best : ℚ
  throuput_worst : ℚ
  latency_worst : ℚ
  deriving DecidableEq

/-! ## calculateData -/

/-- The six local accumulators of `calculateData`. -/
structure Accum where
  throuputSum : ℚ
  latencySum : ℚ
  throuputBest : ℚ
  latencyBest : ℚ
  throuputWorst : ℚ
  latencyWorst : ℚ
  deriving DecidableEq

/-- The accumulators before the loop: all `0`. -/
def Accum.init : Accum := ⟨0, 0, 0, 0, 0, 0⟩

/-- One iteration of `for _, result := range results`. -/
def calcStep (a : Accum) (result : resultData) : Accum :=
  { throuputSum := a.throuputSum + result.throuput
    latencySum := a.latencySum + result.latency
    throuputBest :=
      if a.throuputBest = 0 ∨ result.throuput > a.throuputBest then result.throuput
      else a.throuputBest
    latencyBest :=
      if a.latencyBest = 0 ∨ result.latency < a.latencyBest then result.latency
      else a.latencyBest
    throuputWorst :=
      if a.throuputWorst = 0 ∨ result.throuput < a.throuputWorst then result.throuput
      else a.throuputWorst
    latencyWorst :=
      if a.latencyWorst = 0 ∨ result.latency > a.latencyWorst then result.latency
      else a.latencyWorst }

/-- Calculate the average, best and worst values of throughput and latency. -/
def calculateData (results : List resultData) (id : Int) : calculatedData :=
  let a := results.foldl calcStep Accum.init
  { id := id
    throuput_avg := a.throuputSum / (results.length : ℚ)
    latency_avg := a.latencySum / (results.length : ℚ)
    throuput_best := a.throuputBest
    latency_best := a.latencyBest
    throuput_worst := a.throuputWorst
    latency_worst := a.latencyWorst }

/-! ## Environment and effects -/

/-- What one call of `file.Write` returns, together with the duration that
`time.Since(splitStart)` measures around it. -/
structure WriteOutcome where
  /-- The byte count `n`. -/
  n : Nat
  /-- Whether `err != nil`. -/
  err : Bool
  /-- The measured duration in nanoseconds (`time.Duration`). -/
  elapsed : Int

/-- How the runtime answers `make([]byte, blockSize)`. -/
inductive MakeOutcome where
  /-- The slice is allocated. -/
  | ok
  /-- The call panics with `makeslice: len out of range`. -/
  | panics
  /-- The runtime stops the program with `fatal error: runtime: out of memory`. -/
  | fatal
  deriving DecidableEq

/-- The environment of one job: the clock and the outcomes of its system calls. -/
structure Env where
  /-- The value of `time.Now().Unix()` when the file name is built. -/
  now : Int
  /-- Whether `os.OpenFile` succeeds. -/
  openOk : Bool
  /-- The outcome of the `k`-th call of `file.Write` (from 0) on a slice of the given length. -/
  write : Nat → Nat → WriteOutcome
  /-- Whether the `k`-th call of `os.Remove` (from 0) succeeds. -/
  removeOk : Nat → Bool
  /-- What `make([]byte, n)` does. -/
  make : Nat → MakeOutcome

/-- The effects of a job, in the order the code performs them. -/
inductive Event where
  /-- The send `sem <- struct{}{}`. -/
  | acquire
  /-- The call `os.OpenFile(fileName, O_CREATE|O_WRONLY|O_SYNC, 0644)` and whether it succeeded. -/
  | openFile (name : String) (ok : Bool)
  /-- The call `file.Write(data[:len])`, the count it returned and whether it failed. -/
  | write (len : Nat) (n : Nat) (failed : Bool)
  /-- The line printed by a call of `fmt.Println`. -/
  | print (line : String)
  /-- The call `file.Close()`. -/
  | close
  /-- The call `os.Remove(fileName)` and whether it succeeded. -/
  | remove (name : String) (ok : Bool)
  /-- The send `ch <- calc`. -/
  | send (data : calculatedData)
  /-- The deferred `<-sem`. -/
  | release
  /-- The deferred `waitGroup.Done()`. -/
  | done
  /-- The run-time panic of `make([]byte, blockSize)`. -/
  | panic
  /-- The runtime ends the program, after an unrecovered panic or a fatal error. -/
  | exit
  deriving DecidableEq

/-- The state threaded through a job. -/
structure World where
  /-- The effects so far, oldest first. -/
  log : List Event
  /-- The number of `file.Write` calls so far. -/
  writes : Nat
  /-- The number of `os.Remove` calls so far. -/
  removes : Nat
  /-- Whether the job's output file is present on disk. -/
  fileExists : Bool
  deriving DecidableEq

/-- The state when the goroutine starts. -/
def World.init : World := ⟨[], 0, 0, false⟩

/-- Append an effect to the log. -/
def World.emit (w : World) (e : Event) : World := { w with log := w.log ++ [e] }

/-- The call `os.OpenFile(fileName, O_CREATE|..)`: on success the file is on disk. -/
def World.openFile (w : World) (env : Env) (fileName : String) : World :=
  { w with log := w.log ++ [.openFile fileName env.openOk]
           fileExists := w.fileExists || env.openOk }

/-- The call `os.Remove(fileName)`: returns whether `err != nil`. -/
def World.remove (w : World) (env : Env) (fileName : String) : Bool × World :=
  let ok := env.removeOk w.removes
  (!ok, { w with log := w.log ++ [.remove fileName ok]
                 removes := w.removes + 1
                 fileExists := w.fileExists && !ok })

/-- The call `file.Write(data[:len])`. -/
def World.write (w : World) (env : Env) (len : Nat) : WriteOutcome × World :=
  let o := env.write w.writes len
  (o, { w with log := w.log ++ [.write len o.n o.err], writes := w.writes + 1 })

/-! ## writeDataToFile -/

/-- What `writeDataToFile` hands back. -/
structure WriteRun where
  /-- Whether the function returned (`false`: the loop was still running when the fuel ran out). -/
  finished : Bool
  /-- The returned slice (`nil` is `[]`). -/
  results : List resultData
  /-- Whether the returned `error` is non-nil. -/
  err : Bool
  /-- The state afterwards. -/
  world : World
  /-- Whether the function was left by a panic. -/
  panicked : Bool

/-- The loop `for totalSize < fileSize { ... }` of `writeDataToFile`, with at most `fuel`
evaluations of the loop condition. -/
def writeLoop (env : Env) (fileSize : Nat) (fileName : String) (blockSize : Nat) :
    Nat → Nat → List resultData → World → WriteRun
  | 0, _, results, w => ⟨false, results, false, w, false⟩
  | fuel + 1, totalSize, results, w =>
    if totalSize < fileSize then
      let writeSize := if fileSize - totalSize < blockSize then fileSize - totalSize else blockSize
      let (o, w) := w.write env writeSize
      if o.err then
        let w := w.emit (.print ("Error: failed to write data: %s " ++ fileName))
        let w := w.emit .close
        -- `err := os.Remove(fileName)` declares a new `err` in this block,
        -- and the `return nil, err` below it returns that one.
        let (err, w) := w.remove env fileName
        let w := if err then w.emit (.print ("Error: failed to remove file: %s " ++ fileName)) else w
        ⟨true, [], err, w, false⟩
      else
        let seconds : ℚ := (o.elapsed : ℚ) / 1000000000
        writeLoop env fileSize fileName blockSize fuel ((totalSize + o.n) % 2 ^ 64)
          (results ++ [{ throuput := (o.n : ℚ) / 1000 / seconds, latency := seconds * 1000 }]) w
    else ⟨true, results, false, w, false⟩

/-- Write data to a file and measure the time. -/
def writeDataToFile (env : Env) (fuel : Nat) (fileSize : Nat) (fileName : String)
    (blockSize : Nat) (w : World) : WriteRun :=
  -- `data := make([]byte, blockSize)`
  match env.make blockSize with
  | .ok => writeLoop env fileSize fileName blockSize fuel 0 [] w
  | .panics => ⟨false, [], false, w.emit .panic, true⟩
  | .fatal => ⟨false, [], false, w.emit .exit, false⟩

/-! ## processBenchmark -/

/-- What a job goroutine did. -/
structure JobRun where
  /-- Whether `processBenchmark` returned. -/
  finished : Bool
  /-- The state afterwards. -/
  world : World
  /-- Whether the goroutine was ended by a panic. -/
  panicked : Bool

/-- The name `fmt.Sprintf("benchmark_file_%d_%d", id, time.Now().Unix())`. -/
def benchmarkFileName (id : Int) (now : Int) : String :=
  "benchmark_file_" ++ toString id ++ "_" ++ toString now

/-- The two deferred calls, run when `processBenchmark` returns: `<-sem`, then
`waitGroup.Done()`. -/
def runDeferred (w : World) : JobRun := ⟨true, (w.emit .release).emit .done, false⟩

/-- A panic leaves `processBenchmark`: the two deferred calls run, `<-sem`, then
`waitGroup.Done()`, and since nothing recovers the panic the runtime ends the program. -/
def unwindPanic (w : World) : JobRun :=
  ⟨false, ((w.emit .release).emit .done).emit .exit, true⟩

/-- Create a file and test it. -/
def processBenchmark (env : Env) (fuel : Nat) (id : Int) (blockSize fileSize : Nat) : JobRun :=
  let w := World.init.emit .acquire
  let fileName := benchmarkFileName id env.now
  let w := w.openFile env fileName
  if !env.openOk then
    runDeferred (w.emit (.print ("Error: failed to open file: %s " ++ fileName)))
  else
    let r := writeDataToFile env fuel fileSize fileName blockSize w
    if r.panicked then unwindPanic r.world
    else if !r.finished then ⟨false, r.world, false⟩
    else if r.err then runDeferred r.world
    else
      let data := calculateData r.results id
      let w := r.world.emit (.send data)
      let w := w.emit .close
      let (err, w) := w.remove env fileName
      let w := if err then w.emit (.print ("Error: failed to remove file: %s " ++ fileName)) else w
      runDeferred w

/-- The results a job put on the channel. -/
def emitted (log : List Event) : List calculatedData :=
  log.filterMap fun e => match e with
    | .send c => some c
    | _ => none

/-- The allocator of a machine with a few gigabytes of memory: a slice below `2 ^ 32` bytes
is allocated, a larger one exhausts the memory, and from `2 ^ 48` bytes on the length is
out of range for `make`. -/
def makeLimited (n : Nat) : MakeOutcome :=
  if n < 2 ^ 32 then .ok else if n < 2 ^ 48 then .fatal else .panics

/-- An environment in which every system call succeeds and each write takes one
millisecond. -/
def envOk : Env :=
  { now := 1700000000, openOk := true
    write := fun _ len => ⟨len, false, 1000000⟩
    removeOk := fun _ => true
    make := makeLimited }

/-- An environment in which the first write fails and the removal of the file succeeds. -/
def envWriteFails : Env :=
  { now := 1700000000, openOk := true
    write := fun _ _ => ⟨0, true, 1000000⟩
    removeOk := fun k => k == 0
    make := makeLimited }

/-- The best-throughput / worst-latency update of `calcStep`: take the candidate when the
accumulator is still `0` or the candidate is strictly greater. -/
def trackMax (acc x : ℚ) : ℚ := if acc = 0 ∨ x > acc then x else acc

/-- The best-latency / worst-throughput update of `calcStep`: take the candidate when the
accumulator is still `0` or the candidate is strictly less. -/
def trackMin (acc x : ℚ) : ℚ := if acc = 0 ∨ x < acc then x else acc

/-- The value `m` is the maximum of the list `l`. -/
def IsMaxOf (m : ℚ) (l : List ℚ) : Prop := m ∈ l ∧ ∀ x ∈ l, x ≤ m

/-- The value `m` is the minimum of the list `l`. -/
def IsMinOf (m : ℚ) (l : List ℚ) : Prop := m ∈ l ∧ ∀ x ∈ l, m ≤ x

/-- The throughputs of a sample sequence. -/
def throuputs (results : List resultData) : List ℚ := results.map fun r => r.throuput

/-- The latencies of a sample sequence. -/
def latencies (results : List resultData) : List ℚ := results.map fun r => r.latency

/-- A sample of zero latency followed by a sample of two milliseconds. -/
def samplesZeroFirst : List resultData := [⟨0, 0⟩, ⟨512, 2⟩]

/-- A sample of two milliseconds followed by a sample of zero latency and throughput. -/
def samplesZeroLast : List resultData := [⟨512, 2⟩, ⟨0, 0⟩]

/-- Two ordinary samples. -/
def samplesTwo : List resultData := [⟨512, 1⟩, ⟨256, 2⟩]

/-- The effects that `writeDataToFile` can perform. -/
def isBodyEvent : Event → Bool
  | .write _ _ _ => true
  | .print _ => true
  | .close => true
  | .remove _ _ => true
  | .panic => true
  | .exit => true
  | _ => false

/-- An environment in which the file cannot be opened. -/
def envOpenFails : Env :=
  { now := 1700000000, openOk := false
    write := fun _ len => ⟨len, false, 1000000⟩
    removeOk := fun _ => true
    make := makeLimited }

/-! ## main: the goroutines, the semaphore and the result channel

Each goroutine performs the effects of its `processBenchmark` run one at a time, in any
interleaving with the others.  `sem <- struct{}{}` can only be performed while the buffer of
`sem` (capacity `numJobs`) is not full, `<-sem` while it is not empty, and `ch <- data` while
the buffer of `ch` (capacity `numTests`) is not full; every other effect is always enabled.
Once a goroutine has performed `exit` the program has ended and no goroutine takes a step.
A run starts when `main` has made the two channels.  All goroutines exist from the start: one that has not been launched yet behaves like one
that has not taken a step. -/

/-- Whether the goroutine holds a slot of `sem` after the effect. -/
def Event.slotAfter (e : Event) (slot : Bool) : Bool :=
  match e with
  | .acquire => true
  | .release => false
  | _ => slot

/-- Whether the goroutine holds an open file after the effect. -/
def Event.fileAfter (e : Event) (file : Bool) : Bool :=
  match e with
  | .openFile _ ok => ok
  | .close => false
  | _ => file

/-- One job goroutine while it runs. -/
structure Task where
  /-- The effects it has still to perform. -/
  todo : List Event
  /-- Whether it has put a token in `sem` and not taken one out yet. -/
  holdsSlot : Bool
  /-- Whether it has opened its file and not closed it yet. -/
  fileOpen : Bool
  deriving DecidableEq

/-- The shared state of a run. -/
structure Sys where
  /-- The job goroutines, by job id. -/
  tasks : List Task
  /-- The number of tokens in the buffer of `sem`. -/
  sem : Nat
  /-- The buffer of `ch`, oldest first. -/
  ch : List calculatedData
  /-- The counter of `waitGroup`. -/
  wg : Nat
  /-- Whether the runtime has ended the program. -/
  halted : Bool
  deriving DecidableEq

/-- The task after it has performed the first effect `e` of its `todo`. -/
def Task.advance (t : Task) (e : Event) (rest : List Event) : Task :=
  { todo := rest, holdsSlot := e.slotAfter t.holdsSlot, fileOpen := e.fileAfter t.fileOpen }

/-- Goroutine `i` performs its next effect, if the program is still running, the goroutine
has an effect left and that effect is enabled. -/
def stepTask (numJobs numTests : Nat) (s : Sys) (i : Nat) : Option Sys :=
  if s.halted then none else
  match s.tasks[i]? with
  | none => none
  | some t =>
    match t.todo with
    | [] => none
    | e :: rest =>
      let tasks := s.tasks.set i (t.advance e rest)
      match e with
      | .acquire =>
        if s.sem < numJobs then some { s with tasks := tasks, sem := s.sem + 1 } else none
      | .release =>
        if 0 < s.sem then some { s with tasks := tasks, sem := s.sem - 1 } else none
      | .send data =>
        if s.ch.length < numTests then some { s with tasks := tasks, ch := s.ch ++ [data] }
        else none
      | .done => some { s with tasks := tasks, wg := s.wg - 1 }
      | .exit => some { s with tasks := tasks, halted := true }
      | _ => some { s with tasks := tasks }

/-- The states a run can be in. -/
inductive Reachable (numJobs numTests : Nat) (init : Sys) : Sys → Prop where
  | start : Reachable numJobs numTests init init
  | step (s s' : Sys) (i : Nat) : Reachable numJobs numTests init s →
      stepTask numJobs numTests s i = some s' → Reachable numJobs numTests init s'

/-- The state after the loop `for i := 0; i < *numTests; i++ { waitGroup.Add(1); go ... }`:
job `i` runs `processBenchmark(i, blockSize, fileSize, ..)` in its own environment. -/
def initSys (numTests : Nat) (envs : Nat → Env) (fuels : Nat → Nat)
    (blockSize fileSize : Nat) : Sys :=
  { tasks := (List.range numTests).map fun i =>
      { todo := (processBenchmark (envs i) (fuels i) (i : Int) blockSize fileSize).world.log
        holdsSlot := false
        fileOpen := false }
    sem := 0
    ch := []
    wg := numTests
    halted := false }

/-- Run the goroutines in the order given: each entry lets that goroutine perform one
effect (nothing happens when it is blocked or has ended). -/
def runSchedule (numJobs numTests : Nat) : List Nat → Sys → Sys
  | [], s => s
  | i :: rest, s =>
    match stepTask numJobs numTests s i with
    | some s' => runSchedule numJobs numTests rest s'
    | none => runSchedule numJobs numTests rest s

/-- The number of jobs that hold an open output file. -/
def openFiles (s : Sys) : Nat := s.tasks.countP fun t => t.fileOpen

/-- The discipline of a goroutine with respect to the semaphore: from the given flags, the
remaining effects never hold an open file without a slot, acquire only without a slot and
release only with one. -/
def safeTrace (slot file : Bool) : List Event → Bool
  | [] => !file || slot
  | e :: rest =>
    (!file || slot)
      && (match e with
          | .acquire => !slot
          | .release => slot
          | _ => true)
      && safeTrace (e.slotAfter slot) (e.fileAfter file) rest

/-- How `main` ends. -/
inductive MainOutcome where
  /-- A flag was rejected: the line printed. -/
  | invalid (line : String)
  /-- The runtime has ended the program after a panic or a fatal error. -/
  | crashed
  /-- The call `waitGroup.Wait()` has not returned: some goroutine has not called `Done`. -/
  | waiting
  /-- The loop `calc := <-ch` is blocked on the empty channel with every goroutine gone, after
  reporting the results given. -/
  | blocked (reported : List calculatedData)
  /-- The loop received `numTests` results and `main` returned. -/
  | completed (reported : List calculatedData)
  deriving DecidableEq

/-- The loop `for i := 0; i < *numTests; i++ { calc := <-ch; ... }` run after
`waitGroup.Wait()`, when no goroutine is left to send. -/
def collect : Nat → List calculatedData → List calculatedData → MainOutcome
  | 0, _, reported => .completed reported
  | _ + 1, [], reported => .blocked reported
  | n + 1, data :: ch, reported => collect n ch (reported ++ [data])

/-- Processes the arguments, spawns a goroutine, and displays the results. -/
def main (blockSize fileSize : Nat) (numJobs numTests : Int) (envs : Nat → Env)
    (fuels : Nat → Nat) (schedule : List Nat) : MainOutcome :=
  if blockSize ≤ 0 then .invalid "Error: blocksize must be greater than 0"
  else if fileSize ≤ 0 then .invalid "Error: filesize must be greater than 0"
  else if numJobs < 1 then .invalid "Error: numJobs must be at least 1"
  else if numTests < 1 then .invalid "Error: numTests must be at least 1"
  else
    let s := runSchedule numJobs.toNat numTests.toNat schedule
      (initSys numTests.toNat envs fuels blockSize fileSize)
    if s.halted then .crashed
    else if s.wg ≠ 0 then .waiting
    else collect numTests.toNat s.ch []

/-- Job 0 succeeds and job 1 cannot open its file. -/
def envsSecondFails (i : Nat) : Env := if i = 0 then envOk else envOpenFails

/-- The open-file flag after a sequence of effects. -/
def fileAfterAll (file : Bool) (evs : List Event) : Bool :=
  evs.foldl (fun f e => e.fileAfter f) file

/-- What the semaphore discipline needs of a state: the buffer of `sem` holds one token per
goroutine that holds a slot, it is within its capacity, and every goroutine's remaining
effects keep the discipline. -/
def SemInv (numJobs : Nat) (s : Sys) : Prop :=
  s.sem = s.tasks.countP (fun t => t.holdsSlot)
  ∧ s.sem ≤ numJobs
  ∧ ∀ t ∈ s.tasks, safeTrace t.holdsSlot t.fileOpen t.todo = true

/-- The number of results that the goroutines have still to send. -/
def pendingSends (s : Sys) : Nat := (s.tasks.map fun t => (emitted t.todo).length).sum

/-! # Theorems -/

/-! ## Arithmetic of the chunking -/

theorem writeDataToFile_make_ok (env : Env) (fuel fileSize : Nat) (fileName : String)
    (blockSize : Nat) (w : World) (hmake : env.make blockSize = MakeOutcome.ok) :
    writeDataToFile env fuel fileSize fileName blockSize w
      = writeLoop env fileSize fileName blockSize fuel 0 [] w := by
  simp [writeDataToFile, hmake]

theorem foldl_calcStep_fields (results : List resultData) (a : Accum) :
    (results.foldl calcStep a).throuputSum = a.throuputSum + (throuputs results).sum
    ∧ (results.foldl calcStep a).latencySum = a.latencySum + (latencies results).sum
    ∧ (results.foldl calcStep a).throuputBest = (throuputs results).foldl trackMax a.throuputBest
    ∧ (results.foldl calcStep a).latencyBest = (latencies results).foldl trackMin a.latencyBest
    ∧ (results.foldl calcStep a).throuputWorst = (throuputs results).foldl trackMin a.throuputWorst
    ∧ (results.foldl calcStep a).latencyWorst = (latencies results).foldl trackMax a.latencyWorst := by
  induction results generalizing a with
  | nil => simp [throuputs, latencies]
  | cons r rs ih =>
    obtain ⟨h1, h2, h3, h4, h5, h6⟩ := ih (calcStep a r)
    simp only [List.foldl_cons, throuputs, latencies, List.map_cons, List.sum_cons] at *
    refine ⟨?_, ?_, ?_, ?_, ?_, ?_⟩
    · rw [h1]; simp [calcStep, add_assoc]
    · rw [h2]; simp [calcStep, add_assoc]
    · rw [h3]; rfl
    · rw [h4]; rfl
    · rw [h5]; rfl
    · rw [h6]; rfl

theorem foldl_trackMax_isMax (l : List ℚ) (hne : l ≠ [])
    (h : (∀ x ∈ l, x ≠ 0) ∨ (∀ x ∈ l, 0 ≤ x)) : IsMaxOf (l.foldl trackMax 0) l := by
  induction l using List.reverseRecOn with
  | nil => exact absurd rfl hne
  | append_singleton l a ih =>
    rw [List.foldl_append, List.foldl_cons, List.foldl_nil]
    rcases List.eq_nil_or_concat l with hl | ⟨l0, b, hl⟩
    · subst hl
      simp [trackMax, IsMaxOf]
    · have hl' : l ≠ [] := by rw [hl]; simp
      have hsub : (∀ x ∈ l, x ≠ 0) ∨ (∀ x ∈ l, 0 ≤ x) := by
        rcases h with h | h
        · exact Or.inl fun x hx => h x (List.mem_append_left _ hx)
        · exact Or.inr fun x hx => h x (List.mem_append_left _ hx)
      obtain ⟨hmem, hmax⟩ := ih hl' hsub
      have ha0 : l.foldl trackMax 0 = 0 → l.foldl trackMax 0 ≤ a := by
        intro h0
        rcases h with h | h
        · exact absurd h0 (h _ (List.mem_append_left _ hmem))
        · rw [h0]; exact h a (by simp)
      unfold trackMax
      split
      · next hc =>
        refine ⟨by simp, fun x hx => ?_⟩
        have hle : l.foldl trackMax 0 ≤ a := by
          rcases hc with hc | hc
          · exact ha0 hc
          · exact le_of_lt hc
        rcases List.mem_append.mp hx with hx | hx
        · exact le_trans (hmax x hx) hle
        · simp at hx; rw [hx]
      · next hc =>
        push_neg at hc
        refine ⟨List.mem_append_left _ hmem, fun x hx => ?_⟩
        rcases List.mem_append.mp hx with hx | hx
        · exact hmax x hx
        · simp at hx; rw [hx]; exact hc.2

theorem foldl_trackMin_isMin (l : List ℚ) (hne : l ≠ []) (h : ∀ x ∈ l, x ≠ 0) :
    IsMinOf (l.foldl trackMin 0) l := by
  induction l using List.reverseRecOn with
  | nil => exact absurd rfl hne
  | append_singleton l a ih =>
    rw [List.foldl_append, List.foldl_cons, List.foldl_nil]
    rcases List.eq_nil_or_concat l with hl | ⟨l0, b, hl⟩
    · subst hl
      simp [trackMin, IsMinOf]
    · have hl' : l ≠ [] := by rw [hl]; simp
      obtain ⟨hmem, hmin⟩ := ih hl' fun x hx => h x (List.mem_append_left _ hx)
      have hnz : l.foldl trackMin 0 ≠ 0 := h _ (List.mem_append_left _ hmem)
      unfold trackMin
      split
      · next hc =>
        refine ⟨by simp, fun x hx => ?_⟩
        have hle : a ≤ l.foldl trackMin 0 := by
          rcases hc with hc | hc
          · exact absurd hc hnz
          · exact le_of_lt hc
        rcases List.mem_append.mp hx with hx | hx
        · exact le_trans hle (hmin x hx)
        · simp at hx; rw [hx]
      · next hc =>
        push_neg at hc
        refine ⟨List.mem_append_left _ hmem, fun x hx => ?_⟩
        rcases List.mem_append.mp hx with hx | hx
        · exact hmin x hx
        · simp at hx; rw [hx]; exact hc.2

theorem sum_bounds (l : List ℚ) (m : ℚ) :
    ((∀ x ∈ l, m ≤ x) → m * (l.length : ℚ) ≤ l.sum)
    ∧ ((∀ x ∈ l, x ≤ m) → l.sum ≤ m * (l.length : ℚ)) := by
  induction l with
  | nil => simp
  | cons a l ih =>
    constructor
    · intro h
      have h1 := ih.1 fun x hx => h x (List.mem_cons_of_mem _ hx)
      have h2 := h a (List.mem_cons_self _ _)
      simp only [List.length_cons, List.sum_cons, Nat.cast_add, Nat.cast_one]
      linarith
    · intro h
      have h1 := ih.2 fun x hx => h x (List.mem_cons_of_mem _ hx)
      have h2 := h a (List.mem_cons_self _ _)
      simp only [List.length_cons, List.sum_cons, Nat.cast_add, Nat.cast_one]
      linarith

theorem avg_bounds (l : List ℚ) (lo hi : ℚ) (hne : l ≠ []) (hlo : IsMinOf lo l)
    (hhi : IsMaxOf hi l) : lo ≤ l.sum / (l.length : ℚ) ∧ l.sum / (l.length : ℚ) ≤ hi := by
  have hpos : (0 : ℚ) < (l.length : ℚ) := by
    have : 0 < l.length := List.length_pos.mpr hne
    exact_mod_cast this
  exact ⟨(le_div_iff₀ hpos).mpr ((sum_bounds l lo).1 hlo.2),
    (div_le_iff₀ hpos).mpr ((sum_bounds l hi).2 hhi.2)⟩

/-! ## calculateData: the claims -/

/-- C4 (as amended): for a non-empty sample sequence, `throuput_best` is the maximum
throughput and `latency_worst` the maximum latency whenever the values concerned are all
nonzero or all non-negative, and `throuput_worst` is the minimum throughput and
`latency_best` the minimum latency whenever none of the values concerned is `0`. -/
theorem calculateData_best_worst (results : List resultData) (id : Int) (hne : results ≠ []) :
    (((∀ r ∈ results, r.throuput ≠ 0) ∨ (∀ r ∈ results, 0 ≤ r.throuput)) →
        IsMaxOf (calculateData results id).throuput_best (throuputs results))
    ∧ ((∀ r ∈ results, r.throuput ≠ 0) →
        IsMinOf (calculateData results id).throuput_worst (throuputs results))
    ∧ ((∀ r ∈ results, r.latency ≠ 0) →
        IsMinOf (calculateData results id).latency_best (latencies results))
    ∧ (((∀ r ∈ results, r.latency ≠ 0) ∨ (∀ r ∈ results, 0 ≤ r.latency)) →
        IsMaxOf (calculateData results id).latency_worst (latencies results)) := by
  obtain ⟨-, -, h3, h4, h5, h6⟩ := foldl_calcStep_fields results Accum.init
  have ht : throuputs results ≠ [] := by simpa [throuputs] using hne
  have hl : latencies results ≠ [] := by simpa [latencies] using hne
  refine ⟨fun h => ?_, fun h => ?_, fun h => ?_, fun h => ?_⟩
  · show IsMaxOf (results.foldl calcStep Accum.init).throuputBest _
    rw [h3]
    apply foldl_trackMax_isMax _ ht
    simpa [throuputs] using h
  · show IsMinOf (results.foldl calcStep Accum.init).throuputWorst _
    rw [h5]
    apply foldl_trackMin_isMin _ ht
    simpa [throuputs] using h
  · show IsMinOf (results.foldl calcStep Accum.init).latencyBest _
    rw [h4]
    apply foldl_trackMin_isMin _ hl
    simpa [latencies] using h
  · show IsMaxOf (results.foldl calcStep Accum.init).latencyWorst _
    rw [h6]
    apply foldl_trackMax_isMax _ hl
    simpa [latencies] using h

/-- C4 at two ordinary samples: best throughput 512, worst throughput 256, best latency 1,
worst latency 2. -/
theorem calculateData_best_worst_witness :
    IsMaxOf (calculateData samplesTwo 0).throuput_best (throuputs samplesTwo)
    ∧ IsMinOf (calculateData samplesTwo 0).throuput_worst (throuputs samplesTwo)
    ∧ IsMinOf (calculateData samplesTwo 0).latency_best (latencies samplesTwo)
    ∧ IsMaxOf (calculateData samplesTwo 0).latency_worst (latencies samplesTwo) := by
  have h := calculateData_best_worst samplesTwo 0 (by decide)
  have ht : ∀ r ∈ samplesTwo, r.throuput ≠ 0 := by decide
  have hl : ∀ r ∈ samplesTwo, r.latency ≠ 0 := by decide
  exact ⟨h.1 (Or.inl ht), h.2.1 ht, h.2.2.1 hl, h.2.2.2 (Or.inl hl)⟩

/-- C4 as stated fails: after a sample of latency 0 and one of latency 2, `latency_best`
is 2, which is not the minimum latency. -/
theorem calculateData_latency_best_not_min :
    (calculateData samplesZeroFirst 0).latency_best = 2
    ∧ ¬ IsMinOf (calculateData samplesZeroFirst 0).latency_best (latencies samplesZeroFirst) := by
  have h : (calculateData samplesZeroFirst 0).latency_best = 2 := by decide
  refine ⟨h, fun hmin => ?_⟩
  have h0 := hmin.2 0 (by decide)
  rw [h] at h0
  exact absurd h0 (by decide)

/-- C5: for a non-empty sample sequence with no throughput and no latency equal to `0`,
`latency_best ≤ latency_avg ≤ latency_worst` and
`throuput_worst ≤ throuput_avg ≤ throuput_best`. -/
theorem calculateData_avg_between (results : List resultData) (id : Int) (hne : results ≠ [])
    (hnz : ∀ r ∈ results, r.throuput ≠ 0 ∧ r.latency ≠ 0) :
    (calculateData results id).latency_best ≤ (calculateData results id).latency_avg
    ∧ (calculateData results id).latency_avg ≤ (calculateData results id).latency_worst
    ∧ (calculateData results id).throuput_worst ≤ (calculateData results id).throuput_avg
    ∧ (calculateData results id).throuput_avg ≤ (calculateData results id).throuput_best := by
  obtain ⟨h1, h2, h3, h4, h5, h6⟩ := foldl_calcStep_fields results Accum.init
  have ht : throuputs results ≠ [] := by simpa [throuputs] using hne
  have hl : latencies results ≠ [] := by simpa [latencies] using hne
  have htz : ∀ x ∈ throuputs results, x ≠ 0 := by
    simpa [throuputs] using fun r hr => (hnz r hr).1
  have hlz : ∀ x ∈ latencies results, x ≠ 0 := by
    simpa [latencies] using fun r hr => (hnz r hr).2
  have hT := avg_bounds (throuputs results) _ _ ht (foldl_trackMin_isMin _ ht htz)
    (foldl_trackMax_isMax _ ht (Or.inl htz))
  have hL := avg_bounds (latencies results) _ _ hl (foldl_trackMin_isMin _ hl hlz)
    (foldl_trackMax_isMax _ hl (Or.inl hlz))
  have hlenT : (throuputs results).length = results.length := by simp [throuputs]
  have hlenL : (latencies results).length = results.length := by simp [latencies]
  rw [hlenT] at hT
  rw [hlenL] at hL
  simp only [calculateData]
  rw [h1, h2, h3, h4, h5, h6]
  simp only [Accum.init, zero_add]
  exact ⟨hL.1, hL.2, hT.1, hT.2⟩

/-- C5 at two ordinary samples. -/
theorem calculateData_avg_between_witness :
    (calculateData samplesTwo 0).latency_best ≤ (calculateData samplesTwo 0).latency_avg
    ∧ (calculateData samplesTwo 0).latency_avg ≤ (calculateData samplesTwo 0).latency_worst
    ∧ (calculateData samplesTwo 0).throuput_worst ≤ (calculateData samplesTwo 0).throuput_avg
    ∧ (calculateData samplesTwo 0).throuput_avg ≤ (calculateData samplesTwo 0).throuput_best :=
  calculateData_avg_between samplesTwo 0 (by decide) (by decide)

/-- C6: for a non-empty sample sequence, the record returned by `calculateData` carries the
job id, the sum of the throughputs divided by the number of samples, and the sum of the
latencies divided by the number of samples. -/
theorem calculateData_id_and_means (results : List resultData) (id : Int)
    (_hne : results ≠ []) :
    (calculateData results id).id = id
    ∧ (calculateData results id).throuput_avg
        = (throuputs results).sum / (results.length : ℚ)
    ∧ (calculateData results id).latency_avg
        = (latencies results).sum / (results.length : ℚ) := by
  obtain ⟨h1, h2, -⟩ := foldl_calcStep_fields results Accum.init
  simp only [calculateData]
  rw [h1, h2]
  simp only [Accum.init, zero_add]
  exact ⟨trivial, trivial, trivial⟩

/-- C6 at two samples: the averages are the means of the two values. -/
theorem calculateData_id_and_means_witness :
    (calculateData samplesTwo 0).id = 0
    ∧ (calculateData samplesTwo 0).throuput_avg = (512 + 256) / 2
    ∧ (calculateData samplesTwo 0).latency_avg = (1 + 2) / 2 := by
  have h := calculateData_id_and_means samplesTwo 0 (by decide)
  refine ⟨h.1, ?_, ?_⟩
  · rw [h.2.1]; norm_num [throuputs, samplesTwo]
  · rw [h.2.2]; norm_num [latencies, samplesTwo]

/-- C10 (as amended): when the last sample has a nonzero latency, `latency_best` is not `0`,
and when the last sample has a nonzero throughput, `throuput_worst` is not `0`, whatever
zero-valued samples come before it. -/
theorem calculateData_zero_overwritten (results : List resultData) (last : resultData)
    (id : Int) :
    (last.latency ≠ 0 → (calculateData (results ++ [last]) id).latency_best ≠ 0)
    ∧ (last.throuput ≠ 0 → (calculateData (results ++ [last]) id).throuput_worst ≠ 0) := by
  constructor
  · intro h
    show ((results ++ [last]).foldl calcStep Accum.init).latencyBest ≠ 0
    rw [List.foldl_append, List.foldl_cons, List.foldl_nil]
    simp only [calcStep]
    split
    · exact h
    · next hc => push_neg at hc; exact hc.1
  · intro h
    show ((results ++ [last]).foldl calcStep Accum.init).throuputWorst ≠ 0
    rw [List.foldl_append, List.foldl_cons, List.foldl_nil]
    simp only [calcStep]
    split
    · exact h
    · next hc => push_neg at hc; exact hc.1

/-- C10 at a zero sample followed by a nonzero one: the zero is overwritten. -/
theorem calculateData_zero_overwritten_witness :
    (calculateData ([⟨0, 0⟩] ++ [⟨512, 2⟩]) 0).latency_best ≠ 0
    ∧ (calculateData ([⟨0, 0⟩] ++ [⟨512, 2⟩]) 0).throuput_worst ≠ 0 :=
  ⟨(calculateData_zero_overwritten [⟨0, 0⟩] ⟨512, 2⟩ 0).1 (by decide),
   (calculateData_zero_overwritten [⟨0, 0⟩] ⟨512, 2⟩ 0).2 (by decide)⟩

/-- C10 as stated fails: a zero-valued sample that comes last, after a nonzero one, is
both the reported `latency_best` and the reported `throuput_worst`. -/
theorem calculateData_zero_last_registers :
    (∃ r ∈ samplesZeroLast, r.latency = 0) ∧ (∃ r ∈ samplesZeroLast, r.latency ≠ 0)
    ∧ (calculateData samplesZeroLast 0).latency_best = 0
    ∧ (∃ r ∈ samplesZeroLast, r.throuput = 0) ∧ (∃ r ∈ samplesZeroLast, r.throuput ≠ 0)
    ∧ (calculateData samplesZeroLast 0).throuput_worst = 0 := by
  decide

/-! ## writeDataToFile in general -/

theorem writeLoop_spec (env : Env) (fileSize : Nat) (fileName : String) (blockSize : Nat) :
    ∀ (fuel totalSize : Nat) (results : List resultData) (w : World),
      ∃ evs, (writeLoop env fileSize fileName blockSize fuel totalSize results w).world.log
          = w.log ++ evs
        ∧ (∀ e ∈ evs, isBodyEvent e = true)
        ∧ ((writeLoop env fileSize fileName blockSize fuel totalSize results w).finished = true →
            ((writeLoop env fileSize fileName blockSize fuel totalSize results w).err = false
              ∧ (writeLoop env fileSize fileName blockSize fuel totalSize results w).world.removes
                  = w.removes
              ∧ (writeLoop env fileSize fileName blockSize fuel totalSize results w).world.fileExists
                  = w.fileExists
              ∧ Event.close ∉ evs
              ∧ ∀ len n, Event.write len n true ∉ evs)
            ∨ ((writeLoop env fileSize fileName blockSize fuel totalSize results w).results = []
              ∧ (writeLoop env fileSize fileName blockSize fuel totalSize results w).err
                  = !(env.removeOk w.removes)
              ∧ (writeLoop env fileSize fileName blockSize fuel totalSize results w).world.removes
                  = w.removes + 1
              ∧ (writeLoop env fileSize fileName blockSize fuel totalSize results w).world.fileExists
                  = (w.fileExists && !(env.removeOk w.removes))
              ∧ Event.remove fileName (env.removeOk w.removes) ∈ evs
              ∧ Event.close ∈ evs
              ∧ ∃ len n, Event.write len n true ∈ evs)) := by
  intro fuel
  induction fuel with
  | zero =>
    intro totalSize results w
    exact ⟨[], by simp [writeLoop], by simp, by simp [writeLoop]⟩
  | succ fuel ih =>
    intro totalSize results w
    by_cases hlt : totalSize < fileSize
    · rw [writeLoop]
      simp only [hlt, if_true, World.write]
      generalize (if fileSize - totalSize < blockSize then fileSize - totalSize else blockSize) = ws
      cases herr : (env.write w.writes ws).err
      · simp only [Bool.false_eq_true, if_false]
        obtain ⟨evs, h1, h2, h3⟩ := ih ((totalSize + (env.write w.writes ws).n) % 2 ^ 64)
          (results ++ [{ throuput := ((env.write w.writes ws).n : ℚ) / 1000
                            / (((env.write w.writes ws).elapsed : ℚ) / 1000000000),
                         latency := ((env.write w.writes ws).elapsed : ℚ) / 1000000000 * 1000 }])
          { w with log := w.log ++ [Event.write ws (env.write w.writes ws).n false]
                   writes := w.writes + 1 }
        refine ⟨Event.write ws (env.write w.writes ws).n false :: evs, ?_, ?_, ?_⟩
        · rw [h1]; simp
        · intro e he
          rcases List.mem_cons.mp he with he | he
          · rw [he]; rfl
          · exact h2 e he
        · intro hfin
          rcases h3 hfin with ⟨a, b, c, d, g⟩ | ⟨a, b, c, d, e, f, len, n, g⟩
          · exact Or.inl ⟨a, b, c, by simpa using d, fun len n => by simpa using g len n⟩
          · exact Or.inr ⟨a, b, c, d, List.mem_cons_of_mem _ e, List.mem_cons_of_mem _ f,
              len, n, List.mem_cons_of_mem _ g⟩
      · simp only [if_true, World.emit, World.remove]
        cases hrm : env.removeOk w.removes
        · refine ⟨[Event.write ws (env.write w.writes ws).n true,
            Event.print ("Error: failed to write data: %s " ++ fileName), Event.close,
            Event.remove fileName false,
            Event.print ("Error: failed to remove file: %s " ++ fileName)], ?_, ?_, ?_⟩
          · simp
          · simp [isBodyEvent]
          · intro _
            exact Or.inr ⟨by simp, by simp, by simp, by simp, by simp, by simp,
              ws, (env.write w.writes ws).n, by simp⟩
        · refine ⟨[Event.write ws (env.write w.writes ws).n true,
            Event.print ("Error: failed to write data: %s " ++ fileName), Event.close,
            Event.remove fileName true], ?_, ?_, ?_⟩
          · simp
          · simp [isBodyEvent]
          · intro _
            exact Or.inr ⟨by simp, by simp, by simp, by simp, by simp, by simp,
              ws, (env.write w.writes ws).n, by simp⟩
    · exact ⟨[], by simp [writeLoop, hlt], by simp, by simp [writeLoop, hlt]⟩

theorem writeLoop_not_panicked (env : Env) (fileSize : Nat) (fileName : String)
    (blockSize : Nat) :
    ∀ (fuel totalSize : Nat) (results : List resultData) (w : World),
      (writeLoop env fileSize fileName blockSize fuel totalSize results w).panicked = false := by
  intro fuel
  induction fuel with
  | zero => intro _ _ _; rfl
  | succ fuel ih =>
    intro totalSize results w
    rw [writeLoop]
    by_cases hlt : totalSize < fileSize
    · simp only [hlt, if_true, World.write]
      generalize (if fileSize - totalSize < blockSize then fileSize - totalSize else blockSize) = ws
      cases herr : (env.write w.writes ws).err
      · simp only [Bool.false_eq_true, if_false]
        exact ih _ _ _
      · rfl
    · simp [hlt]

theorem writeDataToFile_spec (env : Env) (fuel fileSize : Nat) (fileName : String)
    (blockSize : Nat) (w : World) (r : WriteRun)
    (hr : writeDataToFile env fuel fileSize fileName blockSize w = r) :
    ∃ evs, r.world.log = w.log ++ evs
      ∧ (∀ e ∈ evs, isBodyEvent e = true)
      ∧ (r.finished = true →
          (r.err = false ∧ r.world.removes = w.removes ∧ r.world.fileExists = w.fileExists
            ∧ Event.close ∉ evs
            ∧ ∀ len n, Event.write len n true ∉ evs)
          ∨ (r.results = [] ∧ r.err = !(env.removeOk w.removes)
            ∧ r.world.removes = w.removes + 1
            ∧ r.world.fileExists = (w.fileExists && !(env.removeOk w.removes))
            ∧ Event.remove fileName (env.removeOk w.removes) ∈ evs
            ∧ Event.close ∈ evs
            ∧ ∃ len n, Event.write len n true ∈ evs))
      ∧ (r.panicked = true ↔ env.make blockSize = MakeOutcome.panics) := by
  subst hr
  cases hmake : env.make blockSize
  · rw [writeDataToFile_make_ok env fuel fileSize fileName blockSize w hmake]
    obtain ⟨evs, h1, h2, h3⟩ := writeLoop_spec env fileSize fileName blockSize fuel 0 [] w
    refine ⟨evs, h1, h2, h3, ?_⟩
    rw [writeLoop_not_panicked env fileSize fileName blockSize fuel 0 [] w]
    simp
  · exact ⟨[Event.panic], by simp [writeDataToFile, hmake, World.emit],
      by simp [isBodyEvent], by simp [writeDataToFile, hmake], by simp [writeDataToFile, hmake]⟩
  · exact ⟨[Event.exit], by simp [writeDataToFile, hmake, World.emit],
      by simp [isBodyEvent], by simp [writeDataToFile, hmake], by simp [writeDataToFile, hmake]⟩

theorem writeDataToFile_err_iff (env : Env) (fuel fileSize : Nat) (fileName : String)
    (blockSize : Nat)
    (hfin : (writeDataToFile env fuel fileSize fileName blockSize World.init).finished = true) :
    ((writeDataToFile env fuel fileSize fileName blockSize World.init).err = true
      ↔ (∃ len n, Event.write len n true
            ∈ (writeDataToFile env fuel fileSize fileName blockSize World.init).world.log)
        ∧ env.removeOk 0 = false)
    ∧ ((∃ len n, Event.write len n true
            ∈ (writeDataToFile env fuel fileSize fileName blockSize World.init).world.log) →
        (writeDataToFile env fuel fileSize fileName blockSize World.init).results = []) := by
  obtain ⟨evs, hlog, -, hspec, -⟩ := writeDataToFile_spec env fuel fileSize fileName blockSize
    World.init _ rfl
  have hinit : World.init.log ++ evs = evs := rfl
  have hrm : World.init.removes = 0 := rfl
  rw [hinit] at hlog
  rw [hrm] at hspec
  rw [hlog]
  rcases hspec hfin with ⟨a, -, -, -, g⟩ | ⟨a, b, -, -, -, -, len, n, g⟩
  · refine ⟨?_, ?_⟩
    · rw [a]
      constructor
      · intro h; exact absurd h (by simp)
      · rintro ⟨⟨len, n, h⟩, -⟩; exact absurd h (g len n)
    · rintro ⟨len, n, h⟩; exact absurd h (g len n)
  · refine ⟨?_, fun _ => a⟩
    rw [b]
    constructor
    · intro h; exact ⟨⟨len, n, g⟩, by simpa using h⟩
    · rintro ⟨-, h⟩; simp [h]

/-! ## processBenchmark -/

theorem processBenchmark_cases (env : Env) (fuel : Nat) (id : Int) (blockSize fileSize : Nat)
    (hopen : env.openOk = true) (r : WriteRun)
    (hr : writeDataToFile env fuel fileSize (benchmarkFileName id env.now) blockSize
      ((World.init.emit .acquire).openFile env (benchmarkFileName id env.now)) = r) :
    (r.panicked = true → processBenchmark env fuel id blockSize fileSize = unwindPanic r.world)
    ∧ (r.panicked = false → r.finished = false →
        processBenchmark env fuel id blockSize fileSize = ⟨false, r.world, false⟩)
    ∧ (r.panicked = false → r.finished = true → r.err = true →
        processBenchmark env fuel id blockSize fileSize = runDeferred r.world)
    ∧ (r.panicked = false → r.finished = true → r.err = false →
        (processBenchmark env fuel id blockSize fileSize).finished = true
        ∧ (processBenchmark env fuel id blockSize fileSize).world.log
            = r.world.log
              ++ ([Event.send (calculateData r.results id), Event.close,
                    Event.remove (benchmarkFileName id env.now) (env.removeOk r.world.removes)]
                ++ (if env.removeOk r.world.removes = true then []
                    else [Event.print ("Error: failed to remove file: %s "
                            ++ benchmarkFileName id env.now)])
                ++ [Event.release, Event.done])
        ∧ (processBenchmark env fuel id blockSize fileSize).world.fileExists
            = (r.world.fileExists && !(env.removeOk r.world.removes))) := by
  subst hr
  simp only [processBenchmark, hopen, Bool.not_true, Bool.false_eq_true, if_false]
  generalize writeDataToFile env fuel fileSize (benchmarkFileName id env.now) blockSize
    ((World.init.emit .acquire).openFile env (benchmarkFileName id env.now)) = r
  obtain ⟨fin, res, err, w, pan⟩ := r
  refine ⟨fun h0 => ?_, fun h0 h => ?_, fun h0 h1 h2 => ?_, fun h0 h1 h2 => ?_⟩
  · simp only at h0; subst h0; simp
  · simp only at h0 h; subst h0; subst h; simp
  · simp only at h0 h1 h2; subst h0; subst h1; subst h2; simp
  · simp only at h0 h1 h2; subst h0; subst h1; subst h2
    cases hrm : env.removeOk w.removes <;>
      simp [hrm, runDeferred, World.emit, World.remove]

/-- C3 at its failing input: the first write fails and the removal of the partial file
succeeds.  `writeDataToFile` stops after that one write and returns a nil slice, but the
error it returns is the nil error of `os.Remove`. -/
theorem writeDataToFile_failed_write_nil_error :
    (writeDataToFile envWriteFails 3 1024 "benchmark_file_0_1700000000" 512 World.init).finished
      = true
    ∧ (writeDataToFile envWriteFails 3 1024 "benchmark_file_0_1700000000" 512 World.init).results
      = []
    ∧ (writeDataToFile envWriteFails 3 1024 "benchmark_file_0_1700000000" 512 World.init).err
      = false
    ∧ (writeDataToFile envWriteFails 3 1024 "benchmark_file_0_1700000000" 512 World.init).world.log
      = [Event.write 512 0 true,
         Event.print "Error: failed to write data: %s benchmark_file_0_1700000000",
         Event.close,
         Event.remove "benchmark_file_0_1700000000" true] := by
  decide

/-- C2 at its failing input: the first write fails and the removal of the partial file
succeeds.  `processBenchmark` still sends a result, computed from no samples. -/
theorem processBenchmark_failed_write_emits :
    (processBenchmark envWriteFails 3 0 512 1024).finished = true
    ∧ Event.write 512 0 true ∈ (processBenchmark envWriteFails 3 0 512 1024).world.log
    ∧ emitted (processBenchmark envWriteFails 3 0 512 1024).world.log = [calculateData [] 0] := by
  decide!

/-! ## The semaphore discipline of one job -/

theorem safeTrace_body (evs tail : List Event) (hbody : ∀ e ∈ evs, isBodyEvent e = true) :
    ∀ file : Bool, safeTrace true file (evs ++ tail)
      = safeTrace true (fileAfterAll file evs) tail := by
  induction evs with
  | nil => intro file; rfl
  | cons e evs ih =>
    intro file
    have he := hbody e (List.mem_cons_self _ _)
    have ih' := ih (fun x hx => hbody x (List.mem_cons_of_mem _ hx)) (e.fileAfter file)
    cases e <;> simp [isBodyEvent] at he <;>
      simpa [safeTrace, Event.slotAfter, fileAfterAll] using ih'

theorem fileAfterAll_close (evs : List Event) (hbody : ∀ e ∈ evs, isBodyEvent e = true)
    (hclose : Event.close ∈ evs) : ∀ file : Bool, fileAfterAll file evs = false := by
  induction evs with
  | nil => simp at hclose
  | cons e evs ih =>
    intro file
    have he := hbody e (List.mem_cons_self _ _)
    have hrest : ∀ x ∈ evs, isBodyEvent x = true := fun x hx => hbody x (List.mem_cons_of_mem _ hx)
    have hfalse : ∀ l : List Event, (∀ x ∈ l, isBodyEvent x = true) →
        fileAfterAll false l = false := by
      intro l
      induction l with
      | nil => intro _; rfl
      | cons x l ihl =>
        intro hl
        have hx := hl x (List.mem_cons_self _ _)
        have := ihl fun y hy => hl y (List.mem_cons_of_mem _ hy)
        cases x <;> simp [isBodyEvent] at hx <;>
          simpa [fileAfterAll, Event.fileAfter] using this
    rcases List.mem_cons.mp hclose with hc | hc
    · subst hc
      simpa [fileAfterAll, Event.fileAfter] using hfalse evs hrest
    · have := ih hrest hc (e.fileAfter file)
      simpa [fileAfterAll] using this

theorem processBenchmark_safeTrace (env : Env) (fuel : Nat) (id : Int)
    (blockSize fileSize : Nat) (hmake : env.make blockSize ≠ MakeOutcome.panics) :
    safeTrace false false (processBenchmark env fuel id blockSize fileSize).world.log = true := by
  cases hopen : env.openOk
  · simp [processBenchmark, hopen, runDeferred, World.emit, World.openFile, World.init,
      safeTrace, Event.slotAfter, Event.fileAfter]
  · obtain ⟨-, c1, c2, c3⟩ := processBenchmark_cases env fuel id blockSize fileSize hopen _ rfl
    obtain ⟨evs, hlog, hbody, hspec, hpan⟩ := writeDataToFile_spec env fuel fileSize
      (benchmarkFileName id env.now) blockSize
      ((World.init.emit .acquire).openFile env (benchmarkFileName id env.now)) _ rfl
    generalize writeDataToFile env fuel fileSize (benchmarkFileName id env.now) blockSize
      ((World.init.emit .acquire).openFile env (benchmarkFileName id env.now)) = r
      at c1 c2 c3 hlog hspec hpan
    have hp : r.panicked = false := by
      cases hpn : r.panicked
      · rfl
      · exact absurd (hpan.mp hpn) hmake
    replace c1 := c1 hp
    replace c2 := c2 hp
    replace c3 := c3 hp
    have hpre : ∀ tail : List Event, safeTrace false false (r.world.log ++ tail)
        = safeTrace true (fileAfterAll true evs) tail := by
      intro tail
      rw [hlog, List.append_assoc, ← safeTrace_body evs tail hbody true]
      simp [World.emit, World.openFile, World.init, hopen, safeTrace, Event.slotAfter,
        Event.fileAfter]
    cases hrf : r.finished
    · rw [c1 hrf]
      have := hpre []
      rw [List.append_nil] at this
      rw [this]
      simp [safeTrace]
    · cases hre : r.err
      · rw [(c3 hrf hre).2.1, hpre]
        cases fileAfterAll true evs <;> cases env.removeOk r.world.removes <;>
          simp [safeTrace, Event.slotAfter, Event.fileAfter]
      · rw [c2 hrf hre]
        rcases hspec hrf with ⟨a, -⟩ | ⟨-, -, -, -, -, f, -⟩
        · rw [a] at hre; exact absurd hre (by simp)
        · have hcl := fileAfterAll_close evs hbody f true
          have : (runDeferred r.world).world.log = r.world.log ++ [Event.release, Event.done] := by
            simp [runDeferred, World.emit]
          rw [this, hpre, hcl]
          simp [safeTrace, Event.slotAfter, Event.fileAfter]

/-! ## The semaphore discipline of a run -/

theorem countP_set_add {α : Type} (p : α → Bool) (a b : α) :
    ∀ (l : List α) (i : Nat), l[i]? = some b →
      (l.set i a).countP p + (if p b = true then 1 else 0)
        = l.countP p + (if p a = true then 1 else 0) := by
  intro l
  induction l with
  | nil => intro i h; simp at h
  | cons x l ih =>
    intro i h
    cases i with
    | zero =>
      simp only [List.getElem?_cons_zero, Option.some.injEq] at h
      subst h
      simp only [List.set_cons_zero, List.countP_cons]
      omega
    | succ i =>
      simp only [List.getElem?_cons_succ] at h
      have := ih i h
      simp only [List.set_cons_succ, List.countP_cons]
      omega

theorem stepTask_some (numJobs numTests : Nat) (s s' : Sys) (i : Nat)
    (h : stepTask numJobs numTests s i = some s') :
    ∃ t e rest, s.tasks[i]? = some t ∧ t.todo = e :: rest
      ∧ s'.tasks = s.tasks.set i (t.advance e rest)
      ∧ ((e = Event.acquire ∧ s.sem < numJobs ∧ s'.sem = s.sem + 1)
        ∨ (e = Event.release ∧ 0 < s.sem ∧ s'.sem = s.sem - 1)
        ∨ (e ≠ Event.acquire ∧ e ≠ Event.release ∧ s'.sem = s.sem)) := by
  unfold stepTask at h
  have hrun : s.halted = false := by
    cases hh : s.halted
    · rfl
    · simp [hh] at h
  simp only [hrun, Bool.false_eq_true, if_false] at h
  cases hget : s.tasks[i]? with
  | none => simp [hget] at h
  | some t =>
    cases htodo : t.todo with
    | nil => simp [hget, htodo] at h
    | cons e rest =>
      refine ⟨t, e, rest, rfl, htodo, ?_⟩
      simp only [hget, htodo] at h
      cases e with
      | acquire =>
        by_cases hc : s.sem < numJobs
        · simp only [hc, if_true, Option.some.injEq] at h
          subst h
          exact ⟨rfl, Or.inl ⟨rfl, hc, rfl⟩⟩
        · simp [hc] at h
      | release =>
        by_cases hc : 0 < s.sem
        · simp only [hc, if_true, Option.some.injEq] at h
          subst h
          exact ⟨rfl, Or.inr (Or.inl ⟨rfl, hc, rfl⟩)⟩
        · simp [hc] at h
      | send data =>
        by_cases hc : s.ch.length < numTests
        · simp only [hc, if_true, Option.some.injEq] at h
          subst h
          exact ⟨rfl, Or.inr (Or.inr ⟨by simp, by simp, rfl⟩)⟩
        · simp [hc] at h
      | openFile name ok =>
        simp only [Option.some.injEq] at h
        subst h
        exact ⟨rfl, Or.inr (Or.inr ⟨by simp, by simp, rfl⟩)⟩
      | write len n failed =>
        simp only [Option.some.injEq] at h
        subst h
        exact ⟨rfl, Or.inr (Or.inr ⟨by simp, by simp, rfl⟩)⟩
      | print line =>
        simp only [Option.some.injEq] at h
        subst h
        exact ⟨rfl, Or.inr (Or.inr ⟨by simp, by simp, rfl⟩)⟩
      | close =>
        simp only [Option.some.injEq] at h
        subst h
        exact ⟨rfl, Or.inr (Or.inr ⟨by simp, by simp, rfl⟩)⟩
      | remove name ok =>
        simp only [Option.some.injEq] at h
        subst h
        exact ⟨rfl, Or.inr (Or.inr ⟨by simp, by simp, rfl⟩)⟩
      | done =>
        simp only [Option.some.injEq] at h
        subst h
        exact ⟨rfl, Or.inr (Or.inr ⟨by simp, by simp, rfl⟩)⟩
      | panic =>
        simp only [Option.some.injEq] at h
        subst h
        exact ⟨rfl, Or.inr (Or.inr ⟨by simp, by simp, rfl⟩)⟩
      | exit =>
        simp only [Option.some.injEq] at h
        subst h
        exact ⟨rfl, Or.inr (Or.inr ⟨by simp, by simp, rfl⟩)⟩

theorem safeTrace_head (slot file : Bool) (l : List Event)
    (h : safeTrace slot file l = true) : file = true → slot = true := by
  intro hf
  subst hf
  cases l with
  | nil => simpa [safeTrace] using h
  | cons e rest =>
    simp only [safeTrace, Bool.and_eq_true, Bool.or_eq_true, Bool.not_eq_true'] at h
    rcases h.1.1 with h1 | h1
    · exact absurd h1 (by simp)
    · exact h1

theorem semInv_step (numJobs numTests : Nat) (s s' : Sys) (i : Nat) (hinv : SemInv numJobs s)
    (h : stepTask numJobs numTests s i = some s') : SemInv numJobs s' := by
  obtain ⟨hsem, hcap, hsafe⟩ := hinv
  obtain ⟨t, e, rest, hget, htodo, htasks, hcases⟩ := stepTask_some numJobs numTests s s' i h
  have htmem : t ∈ s.tasks := List.getElem?_mem hget
  have hts := hsafe t htmem
  rw [htodo] at hts
  simp only [safeTrace, Bool.and_eq_true] at hts
  obtain ⟨⟨-, hallowed⟩, hrest⟩ := hts
  have hcount := countP_set_add (fun t : Task => t.holdsSlot) (t.advance e rest) t s.tasks i hget
  rw [← htasks] at hcount
  simp only [Task.advance] at hcount
  refine ⟨?_, ?_, ?_⟩
  · rcases hcases with ⟨he, -, hs⟩ | ⟨he, hpos, hs⟩ | ⟨he1, he2, hs⟩
    · subst he
      simp only [Bool.not_eq_true'] at hallowed
      simp only [Event.slotAfter, hallowed, if_true, Bool.false_eq_true, if_false] at hcount
      omega
    · subst he
      have hheld : t.holdsSlot = true := hallowed
      simp only [Event.slotAfter, hheld, if_true, Bool.false_eq_true, if_false] at hcount
      omega
    · have hslot : e.slotAfter t.holdsSlot = t.holdsSlot := by
        cases e <;> simp_all [Event.slotAfter]
      simp only [hslot] at hcount
      omega
  · rcases hcases with ⟨-, hlt, hs⟩ | ⟨-, -, hs⟩ | ⟨-, -, hs⟩ <;> omega
  · intro t' ht'
    rw [htasks] at ht'
    rcases List.mem_or_eq_of_mem_set ht' with hmem | heq
    · exact hsafe t' hmem
    · subst heq
      exact hrest

theorem semInv_init (numJobs numTests : Nat) (envs : Nat → Env) (fuels : Nat → Nat)
    (blockSize fileSize : Nat)
    (hmake : ∀ i, i < numTests → (envs i).make blockSize ≠ MakeOutcome.panics) :
    SemInv numJobs (initSys numTests envs fuels blockSize fileSize) := by
  refine ⟨?_, Nat.zero_le _, ?_⟩
  · show 0 = List.countP _ (List.map _ _)
    rw [List.countP_map, eq_comm, List.countP_eq_zero]
    intro a _
    simp
  · intro t ht
    simp only [initSys, List.mem_map] at ht
    obtain ⟨i, hi, rfl⟩ := ht
    exact processBenchmark_safeTrace _ _ _ _ _ (hmake i (List.mem_range.mp hi))

theorem semInv_reachable (numJobs numTests : Nat) (init s : Sys) (hinit : SemInv numJobs init)
    (h : Reachable numJobs numTests init s) : SemInv numJobs s := by
  induction h with
  | start => exact hinit
  | step s s' i _ hstep ih => exact semInv_step numJobs numTests s s' i ih hstep

theorem reachable_runSchedule (numJobs numTests : Nat) (init : Sys) (schedule : List Nat) :
    ∀ s, Reachable numJobs numTests init s →
      Reachable numJobs numTests init (runSchedule numJobs numTests schedule s) := by
  induction schedule with
  | nil => intro s h; exact h
  | cons i rest ih =>
    intro s h
    simp only [runSchedule]
    cases hstep : stepTask numJobs numTests s i with
    | none => exact ih s h
    | some s' => exact ih s' (Reachable.step s s' i h hstep)

/-- C7 (as amended): when `make([]byte, blockSize)` does not panic in any job, then in every
state that a run of the `numTests` job goroutines can reach, whatever the interleaving, the
environments and the fuel, at most `numJobs` jobs hold an open output file, and a job
that holds an open file holds a slot of the semaphore. -/
theorem at_most_numJobs_open_files (numJobs numTests : Nat) (envs : Nat → Env)
    (fuels : Nat → Nat) (blockSize fileSize : Nat) (s : Sys)
    (hmake : ∀ i, i < numTests → (envs i).make blockSize ≠ MakeOutcome.panics)
    (h : Reachable numJobs numTests (initSys numTests envs fuels blockSize fileSize) s) :
    openFiles s ≤ numJobs ∧ ∀ t ∈ s.tasks, t.fileOpen = true → t.holdsSlot = true := by
  obtain ⟨hsem, hcap, hsafe⟩ := semInv_reachable numJobs numTests _ s
    (semInv_init numJobs numTests envs fuels blockSize fileSize hmake) h
  have himp : ∀ t ∈ s.tasks, t.fileOpen = true → t.holdsSlot = true :=
    fun t ht => safeTrace_head _ _ _ (hsafe t ht)
  refine ⟨?_, himp⟩
  have hle : s.tasks.countP (fun t => t.fileOpen) ≤ s.tasks.countP (fun t => t.holdsSlot) :=
    List.countP_mono_left himp
  unfold openFiles
  omega

/-- C7 with one slot and two jobs, after job 0 has acquired the slot and opened its file
and job 1 has tried twice to start: one file is open. -/
theorem at_most_numJobs_open_files_witness :
    openFiles (runSchedule 1 2 [0, 0, 1, 1] (initSys 2 (fun _ => envOk) (fun _ => 5) 512 1024))
      ≤ 1
    ∧ ∀ t ∈ (runSchedule 1 2 [0, 0, 1, 1]
          (initSys 2 (fun _ => envOk) (fun _ => 5) 512 1024)).tasks,
        t.fileOpen = true → t.holdsSlot = true :=
  at_most_numJobs_open_files 1 2 (fun _ => envOk) (fun _ => 5) 512 1024 _
    (fun _ _ => (by decide : envOk.make 512 ≠ MakeOutcome.panics))
    (reachable_runSchedule 1 2 _ [0, 0, 1, 1] _ Reachable.start)

/-- C7 as stated fails: with one slot, two jobs and block size `2 ^ 63`, job 0 acquires the
slot and opens its file, `make([]byte, blockSize)` panics and the deferred `<-sem` releases
the slot with the file still open; job 1 then acquires the slot and opens its file before
the runtime ends the program: two files are open, and job 0 holds an open file without a
slot. -/
theorem two_open_files_after_panic :
    (1 : Nat) ≤ 1 ∧ (1 : Nat) ≤ 2
    ∧ Reachable 1 2 (initSys 2 (fun _ => envOk) (fun _ => 5) (2 ^ 63) 1024)
        (runSchedule 1 2 [0, 0, 0, 0, 1, 1]
          (initSys 2 (fun _ => envOk) (fun _ => 5) (2 ^ 63) 1024))
    ∧ openFiles (runSchedule 1 2 [0, 0, 0, 0, 1, 1]
        (initSys 2 (fun _ => envOk) (fun _ => 5) (2 ^ 63) 1024)) = 2
    ∧ ∃ t ∈ (runSchedule 1 2 [0, 0, 0, 0, 1, 1]
          (initSys 2 (fun _ => envOk) (fun _ => 5) (2 ^ 63) 1024)).tasks,
        t.fileOpen = true ∧ t.holdsSlot = false := by
  refine ⟨by decide, by decide, reachable_runSchedule 1 2 _ _ _ Reachable.start, by decide, ?_⟩
  decide

/-! ## main: collecting the results -/

theorem collect_eq (n : Nat) : ∀ (ch reported : List calculatedData),
    collect n ch reported
      = if n ≤ ch.length then MainOutcome.completed (reported ++ ch.take n)
        else MainOutcome.blocked (reported ++ ch) := by
  induction n with
  | zero => intro ch reported; simp [collect]
  | succ n ih =>
    intro ch reported
    cases ch with
    | nil => simp [collect]
    | cons data ch => simp [collect, ih]

theorem emitted_body (evs : List Event) (hbody : ∀ e ∈ evs, isBodyEvent e = true) :
    emitted evs = [] := by
  induction evs with
  | nil => rfl
  | cons e evs ih =>
    have he := hbody e (List.mem_cons_self _ _)
    have := ih fun x hx => hbody x (List.mem_cons_of_mem _ hx)
    cases e <;> simp [isBodyEvent] at he <;> simpa [emitted] using this

theorem emitted_append (a b : List Event) : emitted (a ++ b) = emitted a ++ emitted b := by
  simp [emitted]

theorem processBenchmark_emits_at_most_once (env : Env) (fuel : Nat) (id : Int)
    (blockSize fileSize : Nat) :
    (emitted (processBenchmark env fuel id blockSize fileSize).world.log).length ≤ 1
    ∧ (env.openOk = false →
        emitted (processBenchmark env fuel id blockSize fileSize).world.log = []) := by
  cases hopen : env.openOk
  · simp [processBenchmark, hopen, runDeferred, World.emit, World.openFile, World.init, emitted]
  · obtain ⟨c0, c1, c2, c3⟩ := processBenchmark_cases env fuel id blockSize fileSize hopen _ rfl
    obtain ⟨evs, hlog, hbody, -⟩ := writeDataToFile_spec env fuel fileSize
      (benchmarkFileName id env.now) blockSize
      ((World.init.emit .acquire).openFile env (benchmarkFileName id env.now)) _ rfl
    generalize writeDataToFile env fuel fileSize (benchmarkFileName id env.now) blockSize
      ((World.init.emit .acquire).openFile env (benchmarkFileName id env.now)) = r
      at c0 c1 c2 c3 hlog
    have hr : emitted r.world.log = [] := by
      rw [hlog, emitted_append, emitted_body evs hbody]
      simp [World.emit, World.openFile, World.init, emitted]
    refine ⟨?_, by simp⟩
    cases hp : r.panicked
    swap
    · rw [c0 hp]
      have : (unwindPanic r.world).world.log
          = r.world.log ++ [Event.release, Event.done, Event.exit] := by
        simp [unwindPanic, World.emit]
      rw [this, emitted_append, hr]
      simp [emitted]
    replace c1 := c1 hp
    replace c2 := c2 hp
    replace c3 := c3 hp
    cases hrf : r.finished
    · rw [c1 hrf, hr]; simp
    · cases hre : r.err
      · rw [(c3 hrf hre).2.1, emitted_append, hr]
        cases env.removeOk r.world.removes <;> simp [emitted]
      · rw [c2 hrf hre]
        have : (runDeferred r.world).world.log = r.world.log ++ [Event.release, Event.done] := by
          simp [runDeferred, World.emit]
        rw [this, emitted_append, hr]
        simp [emitted]

theorem processBenchmark_emits_iff (env : Env) (fuel : Nat) (id : Int)
    (blockSize fileSize : Nat)
    (hfin : (processBenchmark env fuel id blockSize fileSize).finished = true) :
    emitted (processBenchmark env fuel id blockSize fileSize).world.log = []
      ↔ env.openOk = false
        ∨ ((∃ len n, Event.write len n true
              ∈ (processBenchmark env fuel id blockSize fileSize).world.log)
          ∧ env.removeOk 0 = false) := by
  cases hopen : env.openOk
  · simp [(processBenchmark_emits_at_most_once env fuel id blockSize fileSize).2 hopen]
  · obtain ⟨c0, c1, c2, c3⟩ := processBenchmark_cases env fuel id blockSize fileSize hopen _ rfl
    obtain ⟨evs, hlog, hbody, hspec, -⟩ := writeDataToFile_spec env fuel fileSize
      (benchmarkFileName id env.now) blockSize
      ((World.init.emit .acquire).openFile env (benchmarkFileName id env.now)) _ rfl
    generalize writeDataToFile env fuel fileSize (benchmarkFileName id env.now) blockSize
      ((World.init.emit .acquire).openFile env (benchmarkFileName id env.now)) = r
      at c0 c1 c2 c3 hlog hspec
    have hp : r.panicked = false := by
      cases hpn : r.panicked
      · rfl
      · rw [c0 hpn] at hfin; exact absurd hfin (by simp [unwindPanic])
    replace c1 := c1 hp
    replace c2 := c2 hp
    replace c3 := c3 hp
    have hw0 : ((World.init.emit .acquire).openFile env (benchmarkFileName id env.now)).removes
        = 0 := rfl
    have hw0log : ((World.init.emit .acquire).openFile env (benchmarkFileName id env.now)).log
        = [Event.acquire, Event.openFile (benchmarkFileName id env.now) true] := by
      simp [World.emit, World.openFile, World.init, hopen]
    rw [hw0] at hspec
    rw [hw0log] at hlog
    have hr : emitted r.world.log = [] := by
      rw [hlog, emitted_append, emitted_body evs hbody]
      simp [emitted]
    cases hrf : r.finished
    · rw [c1 hrf] at hfin; exact absurd hfin (by simp)
    · cases hre : r.err
      · obtain ⟨-, k2, -⟩ := c3 hrf hre
        rw [k2]
        constructor
        · intro h
          rw [emitted_append, hr] at h
          revert h
          cases env.removeOk r.world.removes <;> simp [emitted]
        · rintro (h | ⟨⟨len, n, hmem⟩, hrm⟩)
          · exact absurd h (by simp)
          · exfalso
            rcases hspec hrf with ⟨-, -, -, -, g⟩ | ⟨-, b, -⟩
            · rw [hlog] at hmem
              have hnot := g len n
              revert hmem
              cases env.removeOk r.world.removes <;> simp [hnot]
            · rw [hrm] at b
              rw [b] at hre
              exact absurd hre (by simp)
      · rw [c2 hrf hre]
        have hdef : (runDeferred r.world).world.log = r.world.log ++ [Event.release, Event.done] := by
          simp [runDeferred, World.emit]
        rw [hdef, emitted_append, hr]
        simp only [emitted, List.filterMap_cons, List.filterMap_nil, List.append_nil, true_iff]
        right
        rcases hspec hrf with ⟨a, -⟩ | ⟨-, b, -, -, -, -, len, n, g⟩
        · rw [a] at hre; exact absurd hre (by simp)
        · refine ⟨⟨len, n, ?_⟩, ?_⟩
          · rw [hlog]
            exact List.mem_append_left _ (List.mem_append_right _ g)
          · rw [hre] at b
            simpa using b.symm

theorem sum_map_set_add {α : Type} (f : α → Nat) (a b : α) :
    ∀ (l : List α) (i : Nat), l[i]? = some b →
      ((l.set i a).map f).sum + f b = (l.map f).sum + f a := by
  intro l
  induction l with
  | nil => intro i h; simp at h
  | cons x l ih =>
    intro i h
    cases i with
    | zero =>
      simp only [List.getElem?_cons_zero, Option.some.injEq] at h
      subst h
      simp only [List.set_cons_zero, List.map_cons, List.sum_cons]
      omega
    | succ i =>
      simp only [List.getElem?_cons_succ] at h
      have := ih i h
      simp only [List.set_cons_succ, List.map_cons, List.sum_cons]
      omega

theorem stepTask_sends (numJobs numTests : Nat) (s s' : Sys) (i : Nat)
    (h : stepTask numJobs numTests s i = some s') :
    s'.ch.length + pendingSends s' = s.ch.length + pendingSends s := by
  have key : ∃ t e rest, s.tasks[i]? = some t ∧ t.todo = e :: rest
      ∧ s'.tasks = s.tasks.set i (t.advance e rest)
      ∧ s'.ch.length + (emitted rest).length
          = s.ch.length + (emitted (e :: rest)).length := by
    unfold stepTask at h
    have hrun : s.halted = false := by
      cases hh : s.halted
      · rfl
      · simp [hh] at h
    simp only [hrun, Bool.false_eq_true, if_false] at h
    cases hget : s.tasks[i]? with
    | none => simp [hget] at h
    | some t =>
      cases htodo : t.todo with
      | nil => simp [hget, htodo] at h
      | cons e rest =>
        refine ⟨t, e, rest, rfl, htodo, ?_⟩
        simp only [hget, htodo] at h
        cases e with
        | acquire =>
          by_cases hc : s.sem < numJobs
          · simp only [hc, if_true, Option.some.injEq] at h
            subst h
            exact ⟨rfl, by simp [emitted]⟩
          · simp [hc] at h
        | release =>
          by_cases hc : 0 < s.sem
          · simp only [hc, if_true, Option.some.injEq] at h
            subst h
            exact ⟨rfl, by simp [emitted]⟩
          · simp [hc] at h
        | send data =>
          by_cases hc : s.ch.length < numTests
          · simp only [hc, if_true, Option.some.injEq] at h
            subst h
            refine ⟨rfl, ?_⟩
            simp [emitted]
            omega
          · simp [hc] at h
        | openFile name ok =>
          simp only [Option.some.injEq] at h
          subst h
          exact ⟨rfl, by simp [emitted]⟩
        | write len n failed =>
          simp only [Option.some.injEq] at h
          subst h
          exact ⟨rfl, by simp [emitted]⟩
        | print line =>
          simp only [Option.some.injEq] at h
          subst h
          exact ⟨rfl, by simp [emitted]⟩
        | close =>
          simp only [Option.some.injEq] at h
          subst h
          exact ⟨rfl, by simp [emitted]⟩
        | remove name ok =>
          simp only [Option.some.injEq] at h
          subst h
          exact ⟨rfl, by simp [emitted]⟩
        | done =>
          simp only [Option.some.injEq] at h
          subst h
          exact ⟨rfl, by simp [emitted]⟩
        | panic =>
          simp only [Option.some.injEq] at h
          subst h
          exact ⟨rfl, by simp [emitted]⟩
        | exit =>
          simp only [Option.some.injEq] at h
          subst h
          exact ⟨rfl, by simp [emitted]⟩
  obtain ⟨t, e, rest, hget, htodo, htasks, hch⟩ := key
  have hsum := sum_map_set_add (fun t : Task => (emitted t.todo).length) (t.advance e rest) t
    s.tasks i hget
  rw [← htasks] at hsum
  simp only [Task.advance, htodo] at hsum
  unfold pendingSends
  omega

theorem sends_reachable (numJobs numTests : Nat) (init s : Sys)
    (h : Reachable numJobs numTests init s) :
    s.ch.length + pendingSends s = init.ch.length + pendingSends init := by
  induction h with
  | start => rfl
  | step s s' i _ hstep ih => rw [stepTask_sends numJobs numTests s s' i hstep, ih]

theorem sum_range_le (f : Nat → Nat) (n : Nat) (h : ∀ i < n, f i ≤ 1) :
    ((List.range n).map f).sum ≤ n := by
  induction n with
  | zero => simp
  | succ n ih =>
    rw [List.range_succ, List.map_append, List.sum_append]
    have := ih fun i hi => h i (by omega)
    have := h n (by omega)
    simp
    omega

theorem sum_range_lt (f : Nat → Nat) (n j : Nat) (h : ∀ i < n, f i ≤ 1) (hj : j < n)
    (hzero : f j = 0) : ((List.range n).map f).sum < n := by
  induction n with
  | zero => omega
  | succ n ih =>
    rw [List.range_succ, List.map_append, List.sum_append]
    simp only [List.map_cons, List.map_nil, List.sum_cons, List.sum_nil, Nat.add_zero]
    rcases Nat.lt_or_ge j n with hlt | hge
    · have := ih (fun i hi => h i (by omega)) hlt
      have := h n (by omega)
      omega
    · have hjn : j = n := by omega
      subst hjn
      have := sum_range_le f j fun i hi => h i (by omega)
      omega

theorem pendingSends_init_lt (numTests : Nat) (envs : Nat → Env) (fuels : Nat → Nat)
    (blockSize fileSize j : Nat) (hj : j < numTests) (hfail : (envs j).openOk = false) :
    pendingSends (initSys numTests envs fuels blockSize fileSize) < numTests := by
  unfold pendingSends initSys
  simp only [List.map_map]
  apply sum_range_lt _ numTests j
  · intro i _
    exact (processBenchmark_emits_at_most_once _ _ _ _ _).1
  · exact hj
  · have := (processBenchmark_emits_at_most_once (envs j) (fuels j) (j : Int) blockSize
      fileSize).2 hfail
    simp [this]

theorem main_never_completes_after_failed_open (blockSize fileSize : Nat)
    (numJobs numTests : Int) (envs : Nat → Env) (fuels : Nat → Nat) (schedule : List Nat)
    (j : Nat) (hj : (j : Int) < numTests) (hfail : (envs j).openOk = false)
    (reported : List calculatedData) :
    main blockSize fileSize numJobs numTests envs fuels schedule
      ≠ MainOutcome.completed reported := by
  unfold main
  split
  · simp
  · split
    · simp
    · split
      · simp
      · split
        · simp
        · have hreach := reachable_runSchedule numJobs.toNat numTests.toNat
            (initSys numTests.toNat envs fuels blockSize fileSize) schedule _ Reachable.start
          have hsends := sends_reachable _ _ _ _ hreach
          have hlt := pendingSends_init_lt numTests.toNat envs fuels blockSize fileSize j
            (by omega) hfail
          have hch : (initSys numTests.toNat envs fuels blockSize fileSize).ch.length = 0 := rfl
          simp only []
          split
          · simp
          · split
            · simp
            · rw [collect_eq]
              split
              · omega
              · simp

/-- C9 at its failing input: two tests, job 0 succeeds and job 1 cannot open its file.
After both goroutines have ended, `main` reports the one result and then blocks in
`<-ch`; it does not complete. -/
theorem main_blocks_after_failed_job :
    main 512 1024 1 2 envsSecondFails (fun _ => 5) (List.replicate 12 0 ++ List.replicate 12 1)
      = MainOutcome.blocked [calculateData [⟨512, 1⟩, ⟨512, 1⟩] 0] := by
  decide!

end GoIoBenchmark
